import Mathlib

/-!
Shallow embedding of `src/contact_manager.py` (classes `Contact` and
`ContactManager`) and verification of the specification's claims about it.

Strings are modelled as `List Char` (Python `str`, restricted to the ASCII
behaviour the program exercises: `str.strip`, `str.lower`, the regex classes
`[a-zA-Z]`, `\s`, `\w` are modelled over ASCII; Python additionally handles
non-ASCII whitespace and word characters, which no claim touches).
Timestamps (`datetime.now().isoformat()`) are modelled by an explicit `now`
parameter threaded into every operation that reads the clock.
`ValueError` raised by validation is modelled by `Option`/failure flags.
File persistence (`save_contacts`) is modelled by a Boolean "save was
called" component in each manager operation's result.
-/

/-- Python `str` as a list of characters. -/
abbrev Str := List Char

/-- The ASCII whitespace characters stripped by Python `str.strip()` and
matched by the regex class `\s`. -/
def isPySpace (c : Char) : Bool :=
  c = ' ' || c = '\t' || c = '\n' || c = '\x0d' || c = '\x0b' || c = '\x0c'

/-- Python `str.lower()` on an ASCII character. -/
def pyLowerChar (c : Char) : Char :=
  if 'A' ≤ c ∧ c ≤ 'Z' then Char.ofNat (c.toNat + 32) else c

/-- Python `str.lower()`. -/
def pyLower (s : Str) : Str := s.map pyLowerChar

/-- Python `str.strip()`: remove leading and trailing whitespace. -/
def pyStrip (s : Str) : Str :=
  ((s.dropWhile isPySpace).reverse.dropWhile isPySpace).reverse

/-- ASCII letter, the regex class `[a-zA-Z]`. -/
def isAsciiLetter (c : Char) : Bool :=
  ('a' ≤ c && c ≤ 'z') || ('A' ≤ c && c ≤ 'Z')

/-- ASCII digit, the regex class `[0-9]`. -/
def isAsciiDigit (c : Char) : Bool :=
  '0' ≤ c && c ≤ '9'

/-- The character class of the name regex `[a-zA-Z\s\-']` in
`Contact._validate_name`: letters, whitespace, hyphen, apostrophe. -/
def isNameChar (c : Char) : Bool :=
  isAsciiLetter c || isPySpace c || c = '-' || c = Char.ofNat 39

/-- The local-part class `[a-zA-Z0-9._%+-]` of the email regex in
`Contact._validate_email`. -/
def isLocalChar (c : Char) : Bool :=
  isAsciiLetter c || isAsciiDigit c || c = '.' || c = '_' || c = '%' || c = '+' || c = '-'

/-- The domain class `[a-zA-Z0-9.-]` of the email regex. -/
def isDomChar (c : Char) : Bool :=
  isAsciiLetter c || isAsciiDigit c || c = '.' || c = '-'

/-- `re.match(r"^[a-zA-Z\s\-']+$", s)` as a Boolean: non-empty and all
characters in the name class (the input is already stripped, so the `$`
newline subtlety of Python regexes does not arise). -/
def nameMatch (s : Str) : Bool :=
  !s.isEmpty && s.all isNameChar

/-- The tail `[a-zA-Z0-9.-]+\.[a-zA-Z]{2,}$` of the email regex matched
against `r` (everything after the `@`): some split point `i` carries a dot,
a non-empty all-domain-class prefix before it and a ≥2-letter TLD after it. -/
def emailTailMatch (r : Str) : Bool :=
  (List.range r.length).any fun i =>
    r[i]? == some '.' && !(r.take i).isEmpty && (r.take i).all isDomChar &&
    decide (2 ≤ (r.drop (i + 1)).length) && (r.drop (i + 1)).all isAsciiLetter

/-- `re.match(r'^[a-zA-Z0-9._%+-]+@[a-zA-Z0-9.-]+\.[a-zA-Z]{2,}$', s)` as a
Boolean: some position `j` carries the `@`, preceded by a non-empty
local part and followed by a matching domain tail. -/
def emailMatch (s : Str) : Bool :=
  (List.range s.length).any fun j =>
    s[j]? == some '@' && !(s.take j).isEmpty && (s.take j).all isLocalChar &&
    emailTailMatch (s.drop (j + 1))

/-- `Contact._validate_name`: `none` models the raised `ValueError`,
`some` carries the returned stripped name. -/
def validateName (name : Str) : Option Str :=
  if (pyStrip name).isEmpty then none
  else if nameMatch (pyStrip name) then some (pyStrip name)
  else none

/-- `Contact._validate_email`: `none` models the raised `ValueError`,
`some` carries the returned stripped, lowercased email. -/
def validateEmail (email : Str) : Option Str :=
  if (pyStrip email).isEmpty then none
  else if emailMatch (pyStrip email) then some (pyLower (pyStrip email))
  else none

/-- The `Contact` object: one record's fields. -/
structure Contact where
  first_name : Str
  last_name : Str
  email : Str
  phone : Str
  company : Str
  notes : Str
  created_at : Str
  updated_at : Str
deriving DecidableEq, Repr

/-- `Contact.__init__(first_name, last_name, email, phone, company, notes)`
at clock reading `now`; `none` models a raised `ValueError`. -/
def mkContact (fn ln em ph co no now : Str) : Option Contact :=
  match validateName fn, validateName ln, validateEmail em with
  | some f, some l, some e =>
      some ⟨f, l, e, ph, co, no, now, now⟩
  | _, _, _ => none

/-- One step of `Contact.update`'s loop over `kwargs.items()`: keys are
dispatched per attribute (Python's `hasattr` guard plus the `key in
['first_name','last_name']` / `key == 'email'` branches); unrecognized keys
are skipped.  On a validation failure the loop stops with flag `false`,
leaving the fields set so far in place (the Python object has already been
mutated when the exception is raised). -/
def updateLoop : Contact → List (String × Str) → Contact × Bool
  | c, [] => (c, true)
  | c, (k, v) :: rest =>
    if k = "first_name" then
      match validateName v with
      | some n => updateLoop { c with first_name := n } rest
      | none => (c, false)
    else if k = "last_name" then
      match validateName v with
      | some n => updateLoop { c with last_name := n } rest
      | none => (c, false)
    else if k = "email" then
      match validateEmail v with
      | some e => updateLoop { c with email := e } rest
      | none => (c, false)
    else if k = "phone" then updateLoop { c with phone := v } rest
    else if k = "company" then updateLoop { c with company := v } rest
    else if k = "notes" then updateLoop { c with notes := v } rest
    else if k = "created_at" then updateLoop { c with created_at := v } rest
    else if k = "updated_at" then updateLoop { c with updated_at := v } rest
    else updateLoop c rest

/-- `Contact.update(**kwargs)` at clock reading `now`: on success
(`true`) `updated_at` is refreshed; on a validation failure (`false`,
modelling the raised `ValueError`) the partially updated object is
returned and `updated_at` is not touched. -/
def Contact.update (c : Contact) (fields : List (String × Str)) (now : Str) :
    Contact × Bool :=
  match updateLoop c fields with
  | (c1, true) => ({ c1 with updated_at := now }, true)
  | (c1, false) => (c1, false)

/-- `Contact.to_dict()`. -/
def toDict (c : Contact) : List (String × Str) :=
  [("first_name", c.first_name), ("last_name", c.last_name),
   ("email", c.email), ("phone", c.phone), ("company", c.company),
   ("notes", c.notes), ("created_at", c.created_at),
   ("updated_at", c.updated_at)]

/-- `Contact.from_dict(data)` at clock reading `now`: `data[k]` on the three
required keys (a missing key raises, modelled `none`), `data.get(k, '')` on
the optional ones, construction through `Contact.__init__`, then
`created_at`/`updated_at` overridden by `data.get(k, <fresh>)`. -/
def fromDict (d : List (String × Str)) (now : Str) : Option Contact :=
  match d.lookup "first_name", d.lookup "last_name", d.lookup "email" with
  | some fn, some ln, some em =>
    match mkContact fn ln em ((d.lookup "phone").getD [])
        ((d.lookup "company").getD []) ((d.lookup "notes").getD []) now with
    | some c =>
      some { c with created_at := (d.lookup "created_at").getD c.created_at,
                    updated_at := (d.lookup "updated_at").getD c.updated_at }
    | none => none
  | _, _, _ => none

/-- `email.lower().strip()`, the normalization applied to lookup keys by
`find_by_email`. -/
def normalizeEmail (email : Str) : Str := pyStrip (pyLower email)

/-- `ContactManager.find_by_email(email)`: first contact whose stored email
equals the normalized argument, else `None`. -/
def findByEmail (contacts : List Contact) (email : Str) : Option Contact :=
  contacts.find? fun c => c.email == normalizeEmail email

/-- `ContactManager.add_contact(contact)`: result is
(returned Boolean, contact list afterwards, whether `save_contacts` ran). -/
def addContact (contacts : List Contact) (c : Contact) :
    Bool × List Contact × Bool :=
  if (findByEmail contacts c.email).isSome then (false, contacts, false)
  else (true, contacts ++ [c], true)

/-- Python `needle in hay` on strings: `needle` occurs contiguously in
`hay`. -/
def isSubstrOf (needle hay : Str) : Bool :=
  (List.range (hay.length + 1)).any fun i =>
    (hay.drop i).take needle.length == needle

/-- The match test of `ContactManager.search_contacts` for one contact
against an already-normalized query. -/
def searchHit (q : Str) (c : Contact) : Bool :=
  isSubstrOf q (pyLower c.first_name) || isSubstrOf q (pyLower c.last_name) ||
  isSubstrOf q (pyLower c.email) || isSubstrOf q (pyLower c.company)

/-- The accumulation loop of `search_contacts`. -/
def searchLoop (q : Str) : List Contact → List Contact
  | [] => []
  | c :: rest =>
    if searchHit q c then c :: searchLoop q rest else searchLoop q rest

/-- `ContactManager.search_contacts(query)`: the query is lowercased and
stripped, then matched as a substring of four lowercased fields. -/
def searchContacts (contacts : List Contact) (query : Str) : List Contact :=
  searchLoop (pyStrip (pyLower query)) contacts

/-- Replace the first contact satisfying `p` by `y` (Python mutates the
found object in place; its position in the list is unchanged). -/
def updFirst (p : Contact → Bool) (y : Contact) : List Contact → List Contact
  | [] => []
  | c :: rest => if p c then y :: rest else c :: updFirst p y rest

/-- Remove the first contact satisfying `p` (Python `list.remove` on the
object `find_by_email` returned). -/
def eraseFirstP (p : Contact → Bool) : List Contact → List Contact
  | [] => []
  | c :: rest => if p c then rest else c :: eraseFirstP p rest

/-- `ContactManager.update_contact(email, **kwargs)` at clock reading
`now`: result is (outcome, contact list afterwards, whether
`save_contacts` ran); outcome `Except.error ()` models the `ValueError`
propagating out of `Contact.update`, in which case the partially updated
object is still in the list and nothing was saved. -/
def updateContact (contacts : List Contact) (email : Str)
    (fields : List (String × Str)) (now : Str) :
    Except Unit Bool × List Contact × Bool :=
  let e := normalizeEmail email
  match contacts.find? (fun c => c.email == e) with
  | none => (Except.ok false, contacts, false)
  | some c =>
    match Contact.update c fields now with
    | (c1, true) => (Except.ok true, updFirst (fun x => x.email == e) c1 contacts, true)
    | (c1, false) => (Except.error (), updFirst (fun x => x.email == e) c1 contacts, false)

/-- `ContactManager.delete_contact(email)`: result is (returned Boolean,
contact list afterwards, whether `save_contacts` ran). -/
def deleteContact (contacts : List Contact) (email : Str) :
    Bool × List Contact × Bool :=
  let e := normalizeEmail email
  match contacts.find? (fun c => c.email == e) with
  | none => (false, contacts, false)
  | some _ => (true, eraseFirstP (fun c => c.email == e) contacts, true)

/-- The sort key comparison of `get_all_contacts`: Python tuple comparison
on `(c.last_name, c.first_name)`, strings compared lexicographically by
code point (the `List Char` linear order is exactly this lexicographic
order). -/
def keyLe (a b : Contact) : Bool :=
  decide (a.last_name < b.last_name ∨
    (a.last_name = b.last_name ∧ a.first_name ≤ b.first_name))

/-- `ContactManager.get_all_contacts()`: `sorted(self.contacts,
key=lambda c: (c.last_name, c.first_name))` — a stable sort, here
`List.mergeSort`; the field `self.contacts` itself is not reassigned. -/
def getAllContacts (contacts : List Contact) : List Contact :=
  contacts.mergeSort keyLe

/-- The dictionary returned by `ContactManager.get_stats()`. -/
structure Stats where
  total_contacts : Nat
  unique_companies : Nat
  companies : List Str
deriving DecidableEq, Repr

/-- `ContactManager.get_stats()`: `set(c.company for c in self.contacts if
c.company)` is the duplicate-free list of non-empty company values;
`sorted(...)` orders it lexicographically. -/
def getStats (contacts : List Contact) : Stats :=
  let comps := (((contacts.map Contact.company).filter
      (fun s => !s.isEmpty)).dedup).mergeSort (fun s t => decide (s ≤ t))
  ⟨contacts.length, comps.length, comps⟩

/-! ### Character-level facts -/

theorem char_le_iff (a b : Char) : a ≤ b ↔ a.toNat ≤ b.toNat := by
  rw [Char.le_def]; exact Iff.rfl

theorem toNat_A : ('A' : Char).toNat = 65 := rfl

theorem toNat_Z : ('Z' : Char).toNat = 90 := rfl

theorem toNat_la : ('a' : Char).toNat = 97 := rfl

theorem toNat_lz : ('z' : Char).toNat = 122 := rfl

/-- Either `c` is an uppercase ASCII letter and lowering adds 32 to its
code point, or lowering leaves it unchanged. -/
theorem pyLowerChar_cases (c : Char) :
    (65 ≤ c.toNat ∧ c.toNat ≤ 90 ∧ (pyLowerChar c).toNat = c.toNat + 32) ∨
      pyLowerChar c = c := by
  by_cases h : 'A' ≤ c ∧ c ≤ 'Z'
  · left
    have h1 : (65 : Nat) ≤ c.toNat := by
      have := (char_le_iff _ _).1 h.1; rwa [toNat_A] at this
    have h2 : c.toNat ≤ 90 := by
      have := (char_le_iff _ _).1 h.2; rwa [toNat_Z] at this
    refine ⟨h1, h2, ?_⟩
    have hv : Nat.isValidChar (c.toNat + 32) := by left; omega
    rw [pyLowerChar, if_pos h, Char.ofNat, dif_pos hv]
    rfl
  · right
    rw [pyLowerChar, if_neg h]

theorem letter_of_toNat {c : Char} (h1 : 97 ≤ c.toNat) (h2 : c.toNat ≤ 122) :
    isAsciiLetter c = true := by
  have ha : 'a' ≤ c := (char_le_iff _ _).2 (by rw [toNat_la]; omega)
  have hz : c ≤ 'z' := (char_le_iff _ _).2 (by rw [toNat_lz]; omega)
  simp [isAsciiLetter, ha, hz]

theorem isAsciiLetter_pyLowerChar {c : Char} (h : isAsciiLetter c = true) :
    isAsciiLetter (pyLowerChar c) = true := by
  rcases pyLowerChar_cases c with ⟨h1, h2, h3⟩ | he
  · exact letter_of_toNat (by omega) (by omega)
  · rwa [he]

theorem isLocalChar_pyLowerChar {c : Char} (h : isLocalChar c = true) :
    isLocalChar (pyLowerChar c) = true := by
  rcases pyLowerChar_cases c with ⟨h1, h2, h3⟩ | he
  · have := letter_of_toNat (c := pyLowerChar c) (by omega) (by omega)
    simp [isLocalChar, this]
  · rwa [he]

theorem isDomChar_pyLowerChar {c : Char} (h : isDomChar c = true) :
    isDomChar (pyLowerChar c) = true := by
  rcases pyLowerChar_cases c with ⟨h1, h2, h3⟩ | he
  · have := letter_of_toNat (c := pyLowerChar c) (by omega) (by omega)
    simp [isDomChar, this]
  · rwa [he]

theorem pyLowerChar_idem (c : Char) : pyLowerChar (pyLowerChar c) = pyLowerChar c := by
  rcases pyLowerChar_cases c with ⟨h1, h2, h3⟩ | he
  · rcases pyLowerChar_cases (pyLowerChar c) with ⟨g1, g2, g3⟩ | ge
    · omega
    · exact ge
  · rw [he, he]

theorem pyLower_idem (s : Str) : pyLower (pyLower s) = pyLower s := by
  simp only [pyLower, List.map_map]
  exact List.map_congr_left fun c _ => pyLowerChar_idem c

theorem isPySpace_true_cases {c : Char} (h : isPySpace c = true) :
    c = ' ' ∨ c = '\t' ∨ c = '\n' ∨ c = '\x0d' ∨ c = '\x0b' ∨ c = '\x0c' := by
  simp [isPySpace] at h
  tauto

theorem isLocalChar_nonspace {c : Char} (h : isLocalChar c = true) :
    isPySpace c = false := by
  by_contra hs
  rcases isPySpace_true_cases (c := c) (by simpa using hs) with
    rfl | rfl | rfl | rfl | rfl | rfl <;> simp [isLocalChar, isAsciiLetter, isAsciiDigit] at h

theorem isDomChar_nonspace {c : Char} (h : isDomChar c = true) :
    isPySpace c = false := by
  by_contra hs
  rcases isPySpace_true_cases (c := c) (by simpa using hs) with
    rfl | rfl | rfl | rfl | rfl | rfl <;> simp [isDomChar, isAsciiLetter, isAsciiDigit] at h

theorem isAsciiLetter_nonspace {c : Char} (h : isAsciiLetter c = true) :
    isPySpace c = false := by
  by_contra hs
  rcases isPySpace_true_cases (c := c) (by simpa using hs) with
    rfl | rfl | rfl | rfl | rfl | rfl <;> simp [isAsciiLetter] at h

theorem pyLowerChar_nonspace {c : Char} (h : isPySpace c = false) :
    isPySpace (pyLowerChar c) = false := by
  rcases pyLowerChar_cases c with ⟨h1, h2, h3⟩ | he
  · exact isAsciiLetter_nonspace (letter_of_toNat (by omega) (by omega))
  · rwa [he]

/-! ### Facts about `pyStrip` -/

theorem dropWhile_head_false {p : Char → Bool} {l : List Char} {c : Char}
    (h : (l.dropWhile p).head? = some c) : p c = false := by
  induction l with
  | nil => simp at h
  | cons a t ih =>
    by_cases ha : p a
    · rw [List.dropWhile_cons_of_pos ha] at h
      exact ih h
    · rw [List.dropWhile_cons_of_neg ha] at h
      have : a = c := by simpa using h
      subst this
      simpa using ha

theorem dropWhile_eq_self {p : Char → Bool} {l : List Char}
    (h : ∀ c, l.head? = some c → p c = false) : l.dropWhile p = l := by
  cases l with
  | nil => rfl
  | cons a t =>
    have := h a rfl
    simp [List.dropWhile_cons, this]

theorem dropWhile_eq_self_of_all {p : Char → Bool} {l : List Char}
    (h : ∀ c ∈ l, p c = false) : l.dropWhile p = l := by
  cases l with
  | nil => rfl
  | cons a t => simp [List.dropWhile_cons, h a (by simp)]

theorem pyStrip_eq_self_of_nonspace {s : Str}
    (h : ∀ c ∈ s, isPySpace c = false) : pyStrip s = s := by
  rw [pyStrip, dropWhile_eq_self_of_all h,
    dropWhile_eq_self_of_all fun c hc => h c (List.mem_reverse.1 hc),
    List.reverse_reverse]

theorem pyStrip_idem (s : Str) : pyStrip (pyStrip s) = pyStrip s := by
  set A := s.dropWhile isPySpace with hA
  have hstrip : pyStrip s = (A.reverse.dropWhile isPySpace).reverse := rfl
  -- `pyStrip s` is a prefix of `A`, so its head is `A`'s head, which is
  -- not whitespace.
  have hpre : ∃ t : Str, A = pyStrip s ++ t := by
    obtain ⟨t, ht⟩ := (List.dropWhile_suffix (l := A.reverse) isPySpace)
    refine ⟨t.reverse, ?_⟩
    have h2 := congrArg List.reverse ht
    rw [List.reverse_append, List.reverse_reverse] at h2
    rw [hstrip]
    exact h2.symm
  have hhead : ∀ c, (pyStrip s).head? = some c → isPySpace c = false := by
    intro c hc
    obtain ⟨t, ht⟩ := hpre
    have hac : A.head? = some c := by
      rw [ht, List.head?_append, hc]
      rfl
    exact dropWhile_head_false (hA ▸ hac)
  have step1 : (pyStrip s).dropWhile isPySpace = pyStrip s :=
    dropWhile_eq_self hhead
  have step2 : (pyStrip s).reverse.dropWhile isPySpace = (pyStrip s).reverse := by
    apply dropWhile_eq_self
    intro c hc
    rw [hstrip, List.reverse_reverse] at hc
    exact dropWhile_head_false hc
  show (((pyStrip s).dropWhile isPySpace).reverse.dropWhile isPySpace).reverse = pyStrip s
  rw [step1, step2, List.reverse_reverse]

/-! ### The email regex as an explicit decomposition -/

theorem emailTailMatch_iff (r : Str) :
    emailTailMatch r = true ↔ ∃ d t : Str, r = d ++ '.' :: t ∧ d ≠ [] ∧
      (∀ c ∈ d, isDomChar c = true) ∧ 2 ≤ t.length ∧
      (∀ c ∈ t, isAsciiLetter c = true) := by
  constructor
  · intro h
    rw [emailTailMatch, List.any_eq_true] at h
    obtain ⟨i, hmem, hcond⟩ := h
    rw [List.mem_range] at hmem
    simp only [Bool.and_eq_true, beq_iff_eq, decide_eq_true_eq, List.all_eq_true,
      Bool.not_eq_true', List.isEmpty_eq_false_iff_exists_mem] at hcond
    obtain ⟨⟨⟨⟨hdot, hne⟩, hdom⟩, hlen⟩, htld⟩ := hcond
    obtain ⟨hlt, helem⟩ := List.getElem?_eq_some_iff.1 hdot
    refine ⟨r.take i, r.drop (i + 1), ?_, ?_, hdom, hlen, htld⟩
    · calc r = r.take i ++ r.drop i := (List.take_append_drop i r).symm
        _ = r.take i ++ ('.' :: r.drop (i + 1)) := by
            rw [List.drop_eq_getElem_cons hlt, helem]
    · obtain ⟨x, hx⟩ := hne
      exact List.ne_nil_of_mem hx
  · rintro ⟨d, t, rfl, hdne, hdom, hlen, htld⟩
    rw [emailTailMatch, List.any_eq_true]
    refine ⟨d.length, ?_, ?_⟩
    · rw [List.mem_range]
      simp only [List.length_append, List.length_cons]
      omega
    · have h1 : (d ++ '.' :: t)[d.length]? = some '.' := by
        rw [List.getElem?_append_right (Nat.le_refl d.length)]
        simp
      have h2 : (d ++ '.' :: t).take d.length = d := List.take_left d _
      have h3 : (d ++ '.' :: t).drop (d.length + 1) = t := by
        have e : d ++ '.' :: t = (d ++ ['.']) ++ t := by simp
        have e2 : (d ++ ['.']).length = d.length + 1 := by simp
        rw [e, ← e2]
        exact List.drop_left _ _
      simp [h1, h2, h3, hdne, List.all_eq_true, hlen]
      exact ⟨hdom, htld⟩

theorem emailMatch_iff (s : Str) :
    emailMatch s = true ↔ ∃ l r : Str, s = l ++ '@' :: r ∧ l ≠ [] ∧
      (∀ c ∈ l, isLocalChar c = true) ∧ emailTailMatch r = true := by
  constructor
  · intro h
    rw [emailMatch, List.any_eq_true] at h
    obtain ⟨j, hmem, hcond⟩ := h
    rw [List.mem_range] at hmem
    simp only [Bool.and_eq_true, beq_iff_eq, List.all_eq_true,
      Bool.not_eq_true', List.isEmpty_eq_false_iff_exists_mem] at hcond
    obtain ⟨⟨⟨hat, hne⟩, hloc⟩, htail⟩ := hcond
    obtain ⟨hlt, helem⟩ := List.getElem?_eq_some_iff.1 hat
    refine ⟨s.take j, s.drop (j + 1), ?_, ?_, hloc, htail⟩
    · calc s = s.take j ++ s.drop j := (List.take_append_drop j s).symm
        _ = s.take j ++ ('@' :: s.drop (j + 1)) := by
            rw [List.drop_eq_getElem_cons hlt, helem]
    · obtain ⟨x, hx⟩ := hne
      exact List.ne_nil_of_mem hx
  · rintro ⟨l, r, rfl, hlne, hloc, htail⟩
    rw [emailMatch, List.any_eq_true]
    refine ⟨l.length, ?_, ?_⟩
    · rw [List.mem_range]
      simp only [List.length_append, List.length_cons]
      omega
    · have h1 : (l ++ '@' :: r)[l.length]? = some '@' := by
        rw [List.getElem?_append_right (Nat.le_refl l.length)]
        simp
      have h2 : (l ++ '@' :: r).take l.length = l := List.take_left l _
      have h3 : (l ++ '@' :: r).drop (l.length + 1) = r := by
        have e : l ++ '@' :: r = (l ++ ['@']) ++ r := by simp
        have e2 : (l ++ ['@']).length = l.length + 1 := by simp
        rw [e, ← e2]
        exact List.drop_left _ _
      simp [h1, h2, h3, hlne, List.all_eq_true, htail]
      exact hloc

/-- The email regex accepts `s` iff `s` splits as
`local ++ "@" ++ domain ++ "." ++ tld` with the three character-class and
length conditions. -/
theorem emailMatch_shape (s : Str) :
    emailMatch s = true ↔ ∃ l d t : Str, s = l ++ '@' :: (d ++ '.' :: t) ∧
      l ≠ [] ∧ (∀ c ∈ l, isLocalChar c = true) ∧ d ≠ [] ∧
      (∀ c ∈ d, isDomChar c = true) ∧ 2 ≤ t.length ∧
      (∀ c ∈ t, isAsciiLetter c = true) := by
  rw [emailMatch_iff]
  constructor
  · rintro ⟨l, r, rfl, hlne, hloc, htail⟩
    obtain ⟨d, t, rfl, hdne, hdom, hlen, htld⟩ := (emailTailMatch_iff r).1 htail
    exact ⟨l, d, t, rfl, hlne, hloc, hdne, hdom, hlen, htld⟩
  · rintro ⟨l, d, t, rfl, hlne, hloc, hdne, hdom, hlen, htld⟩
    exact ⟨l, d ++ '.' :: t, rfl, hlne, hloc,
      (emailTailMatch_iff _).2 ⟨d, t, rfl, hdne, hdom, hlen, htld⟩⟩

/-! ### Python substring containment -/

/-- `n` occurs contiguously inside `h`. -/
def OccursIn (n h : Str) : Prop := ∃ pre post : Str, h = pre ++ n ++ post

theorem isSubstrOf_iff (n h : Str) : isSubstrOf n h = true ↔ OccursIn n h := by
  constructor
  · intro hs
    rw [isSubstrOf, List.any_eq_true] at hs
    obtain ⟨i, hmem, hcond⟩ := hs
    rw [beq_iff_eq] at hcond
    refine ⟨h.take i, (h.drop i).drop n.length, ?_⟩
    conv_lhs => rw [← List.take_append_drop i h,
      ← List.take_append_drop n.length (h.drop i)]
    rw [hcond, List.append_assoc]
  · rintro ⟨pre, post, rfl⟩
    rw [isSubstrOf, List.any_eq_true]
    refine ⟨pre.length, ?_, ?_⟩
    · rw [List.mem_range]
      simp only [List.length_append]
      omega
    · rw [beq_iff_eq, List.append_assoc, List.drop_left, List.take_left]

/-! ### Validation as a fixed point -/

theorem validateName_eq_some {s t : Str} (h : validateName s = some t) :
    t = pyStrip s ∧ pyStrip s ≠ [] ∧ nameMatch (pyStrip s) = true := by
  unfold validateName at h
  by_cases h1 : (pyStrip s).isEmpty = true
  · rw [if_pos h1] at h
    exact absurd h (by simp)
  · rw [if_neg h1] at h
    by_cases h2 : nameMatch (pyStrip s) = true
    · rw [if_pos h2] at h
      exact ⟨(Option.some.inj h).symm, fun e => h1 (by rw [e]; rfl), h2⟩
    · rw [if_neg h2] at h
      exact absurd h (by simp)

theorem validateName_of {s : Str} (h1 : pyStrip s ≠ [])
    (h2 : nameMatch (pyStrip s) = true) : validateName s = some (pyStrip s) := by
  unfold validateName
  rw [if_neg (by simpa using h1), if_pos h2]

theorem validateEmail_eq_some {s t : Str} (h : validateEmail s = some t) :
    t = pyLower (pyStrip s) ∧ pyStrip s ≠ [] ∧ emailMatch (pyStrip s) = true := by
  unfold validateEmail at h
  by_cases h1 : (pyStrip s).isEmpty = true
  · rw [if_pos h1] at h
    exact absurd h (by simp)
  · rw [if_neg h1] at h
    by_cases h2 : emailMatch (pyStrip s) = true
    · rw [if_pos h2] at h
      exact ⟨(Option.some.inj h).symm, fun e => h1 (by rw [e]; rfl), h2⟩
    · rw [if_neg h2] at h
      exact absurd h (by simp)

theorem validateEmail_of {s : Str} (h1 : pyStrip s ≠ [])
    (h2 : emailMatch (pyStrip s) = true) :
    validateEmail s = some (pyLower (pyStrip s)) := by
  unfold validateEmail
  rw [if_neg (by simpa using h1), if_pos h2]

/-- A name the validator returned passes the validator unchanged. -/
theorem validateName_self {s t : Str} (h : validateName s = some t) :
    validateName t = some t := by
  obtain ⟨rfl, hne, hm⟩ := validateName_eq_some h
  have hs : pyStrip (pyStrip s) = pyStrip s := pyStrip_idem s
  have := validateName_of (s := pyStrip s) (by rw [hs]; exact hne) (by rw [hs]; exact hm)
  rwa [hs] at this

theorem emailMatch_nonspace {s : Str} (h : emailMatch s = true) :
    ∀ c ∈ s, isPySpace c = false := by
  obtain ⟨l, d, t, rfl, _, hloc, _, hdom, _, htld⟩ := (emailMatch_shape s).1 h
  intro c hc
  rcases List.mem_append.1 hc with hl | hr
  · exact isLocalChar_nonspace (hloc c hl)
  · rcases List.mem_cons.1 hr with rfl | hr2
    · decide
    · rcases List.mem_append.1 hr2 with hd | ht
      · exact isDomChar_nonspace (hdom c hd)
      · rcases List.mem_cons.1 ht with rfl | ht2
        · decide
        · exact isAsciiLetter_nonspace (htld c ht2)

/-- The email regex is closed under lowercasing. -/
theorem emailMatch_pyLower {s : Str} (h : emailMatch s = true) :
    emailMatch (pyLower s) = true := by
  obtain ⟨l, d, t, rfl, hlne, hloc, hdne, hdom, hlen, htld⟩ := (emailMatch_shape s).1 h
  apply (emailMatch_shape _).2
  refine ⟨pyLower l, pyLower d, pyLower t, ?_, ?_, ?_, ?_, ?_, ?_, ?_⟩
  · show List.map pyLowerChar _ = _
    rw [List.map_append, List.map_cons, List.map_append, List.map_cons]
    have h1 : pyLowerChar '@' = '@' := by decide
    have h2 : pyLowerChar '.' = '.' := by decide
    rw [h1, h2]
    rfl
  · simpa [pyLower] using hlne
  · intro c hc
    obtain ⟨x, hx, rfl⟩ := List.mem_map.1 hc
    exact isLocalChar_pyLowerChar (hloc x hx)
  · simpa [pyLower] using hdne
  · intro c hc
    obtain ⟨x, hx, rfl⟩ := List.mem_map.1 hc
    exact isDomChar_pyLowerChar (hdom x hx)
  · simpa [pyLower] using hlen
  · intro c hc
    obtain ⟨x, hx, rfl⟩ := List.mem_map.1 hc
    exact isAsciiLetter_pyLowerChar (htld x hx)

/-- An email the validator returned passes the validator unchanged. -/
theorem validateEmail_self {s t : Str} (h : validateEmail s = some t) :
    validateEmail t = some t := by
  obtain ⟨rfl, hne, hm⟩ := validateEmail_eq_some h
  have hnon : ∀ c ∈ pyLower (pyStrip s), isPySpace c = false := by
    intro c hc
    obtain ⟨x, hx, rfl⟩ := List.mem_map.1 hc
    exact pyLowerChar_nonspace (emailMatch_nonspace hm x hx)
  have hfix : pyStrip (pyLower (pyStrip s)) = pyLower (pyStrip s) :=
    pyStrip_eq_self_of_nonspace hnon
  have hne2 : pyLower (pyStrip s) ≠ [] := by simpa [pyLower] using hne
  have hm2 : emailMatch (pyLower (pyStrip s)) = true := emailMatch_pyLower hm
  have := validateEmail_of (s := pyLower (pyStrip s)) (by rw [hfix]; exact hne2)
    (by rw [hfix]; exact hm2)
  rw [hfix] at this
  rwa [pyLower_idem] at this

/-- Record invariant: each stored field passes its validator unchanged.
Every `Contact` the program builds (constructor, `from_dict`, `update`)
satisfies it for the name and email fields. -/
def ValidContact (r : Contact) : Prop :=
  validateName r.first_name = some r.first_name ∧
  validateName r.last_name = some r.last_name ∧
  validateEmail r.email = some r.email

instance : DecidablePred ValidContact := fun r => by
  unfold ValidContact
  infer_instance

theorem mkContact_eq_some {fn ln em ph co no now : Str} {r : Contact} :
    mkContact fn ln em ph co no now = some r ↔
      ∃ f l e : Str, validateName fn = some f ∧ validateName ln = some l ∧
        validateEmail em = some e ∧ r = ⟨f, l, e, ph, co, no, now, now⟩ := by
  unfold mkContact
  rcases h1 : validateName fn with _ | f <;>
    rcases h2 : validateName ln with _ | l <;>
    rcases h3 : validateEmail em with _ | e <;>
    simp [eq_comm]

theorem mkContact_valid {fn ln em ph co no now : Str} {r : Contact}
    (h : mkContact fn ln em ph co no now = some r) : ValidContact r := by
  obtain ⟨f, l, e, hf, hl, he, rfl⟩ := mkContact_eq_some.1 h
  exact ⟨validateName_self hf, validateName_self hl, validateEmail_self he⟩

/-! ### Serialization round trip -/

theorem fromDict_toDict {r : Contact} (h : ValidContact r) (now : Str) :
    fromDict (toDict r) now = some r := by
  obtain ⟨fn, ln, em, ph, co, no, ca, ua⟩ := r
  obtain ⟨h1, h2, h3⟩ := h
  simp only [ValidContact] at h1 h2 h3
  simp [toDict, fromDict, List.lookup, mkContact, h1, h2, h3]

theorem fromDict_defaults {d : List (String × Str)} {now : Str} {r : Contact}
    (h : fromDict d now = some r) :
    (d.lookup "phone" = none → r.phone = []) ∧
    (d.lookup "company" = none → r.company = []) ∧
    (d.lookup "notes" = none → r.notes = []) := by
  unfold fromDict at h
  rcases hfn : d.lookup "first_name" with _ | fn <;> rw [hfn] at h
  · exact absurd h (by simp)
  rcases hln : d.lookup "last_name" with _ | ln <;> rw [hln] at h
  · exact absurd h (by simp)
  rcases hem : d.lookup "email" with _ | em <;> rw [hem] at h
  · exact absurd h (by simp)
  dsimp only at h
  rcases hc : mkContact fn ln em ((d.lookup "phone").getD [])
      ((d.lookup "company").getD []) ((d.lookup "notes").getD []) now with _ | c <;>
    rw [hc] at h
  · exact absurd h (by simp)
  dsimp only at h
  obtain ⟨f, l, e, _, _, _, rfl⟩ := mkContact_eq_some.1 hc
  have hr := (Option.some.inj h).symm
  subst hr
  refine ⟨?_, ?_, ?_⟩ <;> intro hnone <;> simp [hnone]

theorem fromDict_ignores_unknown {k : String} {v : Str} {d : List (String × Str)}
    {now : Str}
    (h : k ∉ ["first_name", "last_name", "email", "phone", "company", "notes",
      "created_at", "updated_at"]) :
    fromDict ((k, v) :: d) now = fromDict d now := by
  simp only [List.mem_cons, List.not_mem_nil, or_false, not_or] at h
  obtain ⟨n1, n2, n3, n4, n5, n6, n7, n8⟩ := h
  have e1 : ("first_name" == k) = false := by simpa using (Ne.symm n1)
  have e2 : ("last_name" == k) = false := by simpa using (Ne.symm n2)
  have e3 : ("email" == k) = false := by simpa using (Ne.symm n3)
  have e4 : ("phone" == k) = false := by simpa using (Ne.symm n4)
  have e5 : ("company" == k) = false := by simpa using (Ne.symm n5)
  have e6 : ("notes" == k) = false := by simpa using (Ne.symm n6)
  have e7 : ("created_at" == k) = false := by simpa using (Ne.symm n7)
  have e8 : ("updated_at" == k) = false := by simpa using (Ne.symm n8)
  simp only [fromDict, List.lookup, e1, e2, e3, e4, e5, e6, e7, e8]

/-! ### Facts about `Contact.update` -/

/-- The attribute names of a `Contact` object (the keys `hasattr` accepts
and `update` acts on). -/
def attrKeys : List String :=
  ["first_name", "last_name", "email", "phone", "company", "notes",
   "created_at", "updated_at"]

theorem updateLoop_skip {k : String} (v : Str) (hk : k ∉ attrKeys)
    (c : Contact) (rest : List (String × Str)) :
    updateLoop c ((k, v) :: rest) = updateLoop c rest := by
  simp only [attrKeys, List.mem_cons, List.not_mem_nil, or_false, not_or] at hk
  obtain ⟨n1, n2, n3, n4, n5, n6, n7, n8⟩ := hk
  simp only [updateLoop, if_neg n1, if_neg n2, if_neg n3, if_neg n4, if_neg n5,
    if_neg n6, if_neg n7, if_neg n8]

/-- The update loop processes a concatenation left to right, continuing
with the right part only when the left part succeeded. -/
theorem updateLoop_append (pre rest : List (String × Str)) (c : Contact) :
    updateLoop c (pre ++ rest) =
      (if (updateLoop c pre).2 = true then updateLoop (updateLoop c pre).1 rest
       else updateLoop c pre) := by
  induction pre generalizing c with
  | nil => simp [updateLoop]
  | cons kv pre ih =>
    obtain ⟨k, v⟩ := kv
    by_cases h1 : k = "first_name"
    · subst h1
      simp only [List.cons_append, updateLoop, if_pos rfl]
      rcases hv : validateName v with _ | n <;> simp only [hv]
      · simp
      · exact ih _
    by_cases h2 : k = "last_name"
    · subst h2
      simp only [List.cons_append, updateLoop, if_neg h1, if_pos rfl]
      rcases hv : validateName v with _ | n <;> simp only [hv]
      · simp
      · exact ih _
    by_cases h3 : k = "email"
    · subst h3
      simp only [List.cons_append, updateLoop, if_neg h1, if_neg h2, if_pos rfl]
      rcases hv : validateEmail v with _ | e <;> simp only [hv]
      · simp
      · exact ih _
    by_cases h4 : k = "phone"
    · subst h4
      simp only [List.cons_append, updateLoop, if_neg h1, if_neg h2, if_neg h3,
        if_pos rfl]
      exact ih _
    by_cases h5 : k = "company"
    · subst h5
      simp only [List.cons_append, updateLoop, if_neg h1, if_neg h2, if_neg h3,
        if_neg h4, if_pos rfl]
      exact ih _
    by_cases h6 : k = "notes"
    · subst h6
      simp only [List.cons_append, updateLoop, if_neg h1, if_neg h2, if_neg h3,
        if_neg h4, if_neg h5, if_pos rfl]
      exact ih _
    by_cases h7 : k = "created_at"
    · subst h7
      simp only [List.cons_append, updateLoop, if_neg h1, if_neg h2, if_neg h3,
        if_neg h4, if_neg h5, if_neg h6, if_pos rfl]
      exact ih _
    by_cases h8 : k = "updated_at"
    · subst h8
      simp only [List.cons_append, updateLoop, if_neg h1, if_neg h2, if_neg h3,
        if_neg h4, if_neg h5, if_neg h6, if_neg h7, if_pos rfl]
      exact ih _
    · simp only [List.cons_append, updateLoop, if_neg h1, if_neg h2, if_neg h3,
        if_neg h4, if_neg h5, if_neg h6, if_neg h7, if_neg h8]
      exact ih _

theorem updateLoop_all_unknown {fields : List (String × Str)}
    (h : ∀ kv ∈ fields, kv.1 ∉ attrKeys) (c : Contact) :
    updateLoop c fields = (c, true) := by
  induction fields with
  | nil => rfl
  | cons kv rest ih =>
    obtain ⟨k, v⟩ := kv
    rw [updateLoop_skip v (h (k, v) (by simp)) c rest]
    exact ih fun x hx => h x (by simp [hx])

theorem updateLoop_remove_unknown {k : String} (v : Str) (hk : k ∉ attrKeys)
    (pre post : List (String × Str)) (c : Contact) :
    updateLoop c (pre ++ (k, v) :: post) = updateLoop c (pre ++ post) := by
  rw [updateLoop_append, updateLoop_append]
  by_cases h : (updateLoop c pre).2 = true
  · rw [if_pos h, if_pos h, updateLoop_skip v hk]
  · rw [if_neg h, if_neg h]

/-! ### Spec-side predicates (phrased from the specification's words, to be
compared with the embedded code) -/

/-- C3's stated name rule: trimmed, non-empty, characters from
`[A-Za-z \x27-]` and the apostrophe — the literal space, NOT arbitrary
whitespace. -/
def SpecNameClaim (n : Str) : Prop :=
  pyStrip n ≠ [] ∧ ∀ c ∈ pyStrip n,
    isAsciiLetter c = true ∨ c = ' ' ∨ c = '-' ∨ c = Char.ofNat 39

/-- The name rule the code actually implements: the regex class `\s`
(any whitespace) in place of the literal space. -/
def SpecNameAmended (n : Str) : Prop :=
  pyStrip n ≠ [] ∧ ∀ c ∈ pyStrip n,
    isAsciiLetter c = true ∨ isPySpace c = true ∨ c = '-' ∨ c = Char.ofNat 39

/-- The regex class `\w` (ASCII): letter, digit or underscore. -/
def SpecWordChar (c : Char) : Prop :=
  isAsciiLetter c = true ∨ isAsciiDigit c = true ∨ c = '_'

/-- Local-part class `[\w.%+-]` of the spec's email pattern. -/
def SpecLocalChar (c : Char) : Prop :=
  SpecWordChar c ∨ c = '.' ∨ c = '%' ∨ c = '+' ∨ c = '-'

/-- Domain class `[\w.-]` of C3's stated email pattern (includes `_`). -/
def SpecDomCharClaim (c : Char) : Prop :=
  SpecWordChar c ∨ c = '.' ∨ c = '-'

/-- Domain class `[A-Za-z0-9.-]` of the amended email pattern (no `_`),
matching the code's regex. -/
def SpecDomCharAmended (c : Char) : Prop :=
  isAsciiLetter c = true ∨ isAsciiDigit c = true ∨ c = '.' ∨ c = '-'

/-- The trimmed email matches `^<local>+@<dom>+\.[A-Za-z]{2,}$` with the
given domain class: it decomposes as local part, `@`, domain, `.`, TLD. -/
def SpecEmailShape (dom : Char → Prop) (e : Str) : Prop :=
  ∃ l d t : Str, pyStrip e = l ++ '@' :: (d ++ '.' :: t) ∧ l ≠ [] ∧
    (∀ c ∈ l, SpecLocalChar c) ∧ d ≠ [] ∧ (∀ c ∈ d, dom c) ∧
    2 ≤ t.length ∧ ∀ c ∈ t, isAsciiLetter c = true

/-- C3's stated email rule (`[\w.-]` domain). -/
def SpecEmailClaim (e : Str) : Prop := SpecEmailShape SpecDomCharClaim e

/-- The amended email rule (`[A-Za-z0-9.-]` domain, as in the code). -/
def SpecEmailAmended (e : Str) : Prop := SpecEmailShape SpecDomCharAmended e

theorem specLocalChar_iff (c : Char) : SpecLocalChar c ↔ isLocalChar c = true := by
  simp only [SpecLocalChar, SpecWordChar, isLocalChar, Bool.or_eq_true,
    decide_eq_true_eq]
  tauto

theorem specDomCharAmended_iff (c : Char) :
    SpecDomCharAmended c ↔ isDomChar c = true := by
  simp only [SpecDomCharAmended, isDomChar, Bool.or_eq_true, decide_eq_true_eq]
  tauto

theorem specNameAmended_iff (n : Str) :
    SpecNameAmended n ↔ (pyStrip n ≠ [] ∧ nameMatch (pyStrip n) = true) := by
  unfold SpecNameAmended nameMatch
  constructor
  · rintro ⟨hne, hall⟩
    refine ⟨hne, ?_⟩
    simp only [Bool.and_eq_true, Bool.not_eq_true', List.all_eq_true]
    constructor
    · cases he : pyStrip n
      · exact absurd he hne
      · rfl
    · intro c hc
      rcases hall c hc with h | h | h | h <;>
        simp [isNameChar, h]
  · rintro ⟨hne, hall⟩
    simp only [Bool.and_eq_true, List.all_eq_true] at hall
    refine ⟨hne, ?_⟩
    intro c hc
    have := hall.2 c hc
    simp only [isNameChar, Bool.or_eq_true, decide_eq_true_eq] at this
    tauto

theorem specEmailAmended_iff (e : Str) :
    SpecEmailAmended e ↔ emailMatch (pyStrip e) = true := by
  rw [emailMatch_shape]
  unfold SpecEmailAmended SpecEmailShape
  constructor
  · rintro ⟨l, d, t, hs, hlne, hloc, hdne, hdom, hlen, htld⟩
    exact ⟨l, d, t, hs, hlne,
      fun c hc => (specLocalChar_iff c).1 (hloc c hc), hdne,
      fun c hc => (specDomCharAmended_iff c).1 (hdom c hc), hlen, htld⟩
  · rintro ⟨l, d, t, hs, hlne, hloc, hdne, hdom, hlen, htld⟩
    exact ⟨l, d, t, hs, hlne,
      fun c hc => (specLocalChar_iff c).2 (hloc c hc), hdne,
      fun c hc => (specDomCharAmended_iff c).2 (hdom c hc), hlen, htld⟩

/-! ### Search, uniqueness and ordering helpers -/

/-- The claim's match predicate for one contact, with the query only
lowercased (spec side, `Prop`-level substring). -/
def SpecQueryHit (q : Str) (c : Contact) : Prop :=
  OccursIn q (pyLower c.first_name) ∨ OccursIn q (pyLower c.last_name) ∨
  OccursIn q (pyLower c.email) ∨ OccursIn q (pyLower c.company)

/-- C6 as claimed: filter by the lowercased — but not trimmed — query. -/
def claimSearchC6 (contacts : List Contact) (q : Str) : List Contact :=
  contacts.filter fun c =>
    isSubstrOf (pyLower q) (pyLower c.first_name) ||
    isSubstrOf (pyLower q) (pyLower c.last_name) ||
    isSubstrOf (pyLower q) (pyLower c.email) ||
    isSubstrOf (pyLower q) (pyLower c.company)

theorem searchLoop_eq_filter (q : Str) (contacts : List Contact) :
    searchLoop q contacts = contacts.filter (searchHit q) := by
  induction contacts with
  | nil => rfl
  | cons c rest ih =>
    by_cases h : searchHit q c
    · simp [searchLoop, List.filter_cons, h, ih]
    · simp only [Bool.not_eq_true] at h
      simp [searchLoop, List.filter_cons, h, ih]

theorem searchHit_iff (q : Str) (c : Contact) :
    searchHit q c = true ↔ SpecQueryHit q c := by
  simp only [searchHit, SpecQueryHit, Bool.or_eq_true, isSubstrOf_iff]
  tauto

/-- Collection invariant: no two records share the same stored
(normalized) email. -/
def UniqueEmails (contacts : List Contact) : Prop :=
  contacts.Pairwise fun a b => a.email ≠ b.email

/-- Sort order of `get_all_contacts`, spec side: ascending in the pair
(last_name, first_name), compared lexicographically and case-sensitively. -/
def SpecKeyLe (a b : Contact) : Prop :=
  a.last_name < b.last_name ∨
    (a.last_name = b.last_name ∧ a.first_name ≤ b.first_name)

theorem keyLe_iff (a b : Contact) : keyLe a b = true ↔ SpecKeyLe a b := by
  simp [keyLe, SpecKeyLe]

theorem keyLe_trans (a b c : Contact) (h1 : keyLe a b = true)
    (h2 : keyLe b c = true) : keyLe a c = true := by
  rw [keyLe_iff] at h1 h2 ⊢
  rcases h1 with h1 | ⟨e1, f1⟩ <;> rcases h2 with h2 | ⟨e2, f2⟩
  · exact Or.inl (lt_trans h1 h2)
  · exact Or.inl (e2 ▸ h1)
  · exact Or.inl (e1 ▸ h2)
  · exact Or.inr ⟨e1.trans e2, le_trans f1 f2⟩

theorem keyLe_total (a b : Contact) : (keyLe a b || keyLe b a) = true := by
  rw [Bool.or_eq_true, keyLe_iff, keyLe_iff]
  rcases lt_trichotomy a.last_name b.last_name with h | h | h
  · exact Or.inl (Or.inl h)
  · rcases le_total a.first_name b.first_name with hf | hf
    · exact Or.inl (Or.inr ⟨h, hf⟩)
    · exact Or.inr (Or.inr ⟨h.symm, hf⟩)
  · exact Or.inr (Or.inl h)

theorem isSubstrOf_nil (h : Str) : isSubstrOf [] h = true := by
  rw [isSubstrOf_iff]
  exact ⟨[], h, by simp⟩

theorem strLe_trans (a b c : Str) (h1 : decide (a ≤ b) = true)
    (h2 : decide (b ≤ c) = true) : decide (a ≤ c) = true := by
  rw [decide_eq_true_eq] at h1 h2 ⊢
  exact le_trans h1 h2

theorem strLe_total (a b : Str) : (decide (a ≤ b) || decide (b ≤ a)) = true := by
  rw [Bool.or_eq_true, decide_eq_true_eq, decide_eq_true_eq]
  exact le_total a b

/-! ### Sample records used by concrete witnesses and counterexamples -/

def cAda : Contact :=
  ⟨"Ada".toList, "Lovelace".toList, "ada@calc.org".toList, [],
   "Analytical".toList, [], "t0".toList, "t0".toList⟩

def cTech : Contact :=
  ⟨"Grace".toList, "Hopper".toList, "grace@navy.mil".toList, [],
   "TechCorp".toList, [], "t0".toList, "t0".toList⟩

def cAlan : Contact :=
  ⟨"Alan".toList, "Turing".toList, "alan@x.com".toList, [], [], [],
   "t0".toList, "t0".toList⟩

def cBeth : Contact :=
  ⟨"Beth".toList, "Brown".toList, "beth@x.com".toList, [], [], [],
   "t0".toList, "t0".toList⟩

/-! ### The claims -/

/-- C5: `add_contact` returns `false` with no mutation and no save when a
stored record's email equals the new record's normalized email, and
otherwise appends the record at the end, saves, and returns `true`. -/
theorem claim_C5 (contacts : List Contact) (c : Contact) :
    ((∃ x ∈ contacts, x.email = normalizeEmail c.email) →
      addContact contacts c = (false, contacts, false)) ∧
    ((∀ x ∈ contacts, x.email ≠ normalizeEmail c.email) →
      addContact contacts c = (true, contacts ++ [c], true)) := by
  constructor
  · rintro ⟨x, hx, he⟩
    have hs : (findByEmail contacts c.email).isSome = true := by
      rw [findByEmail, List.find?_isSome]
      exact ⟨x, hx, by simp [he]⟩
    rw [addContact, if_pos hs]
  · intro h
    have hn : findByEmail contacts c.email = none := by
      rw [findByEmail, List.find?_eq_none]
      intro x hx
      simp [h x hx]
    rw [addContact, hn]
    simp

theorem claim_C5_witness :
    addContact [cAlan] cBeth = (true, [cAlan, cBeth], true) ∧
    addContact [cAlan] { cBeth with email := "alan@x.com".toList } =
      (false, [cAlan], false) :=
  ⟨(claim_C5 [cAlan] cBeth).2 (by decide),
   (claim_C5 [cAlan] { cBeth with email := "alan@x.com".toList }).1 (by decide)⟩

/-- C6 (amended): `search_contacts` returns, in underlying collection
order, exactly the records whose lowercased first name, last name, email
or company contains the TRIMMED, lowercased query as a substring; the
empty query therefore returns every record. -/
theorem claim_C6 (contacts : List Contact) (q : Str) :
    searchContacts contacts q =
      contacts.filter (searchHit (pyStrip (pyLower q))) ∧
    (∀ c : Contact, searchHit (pyStrip (pyLower q)) c = true ↔
      SpecQueryHit (pyStrip (pyLower q)) c) ∧
    searchContacts contacts [] = contacts := by
  refine ⟨?_, fun c => searchHit_iff _ c, ?_⟩
  · rw [searchContacts, searchLoop_eq_filter]
  · rw [searchContacts]
    have he : pyStrip (pyLower ([] : Str)) = [] := rfl
    rw [he, searchLoop_eq_filter]
    apply List.filter_eq_self.2
    intro a _
    simp [searchHit, isSubstrOf_nil]

/-- C6 as stated is false: the code strips the query before matching, so
the query `" tech "` finds the record with company `"TechCorp"`, while the
claim's un-trimmed match finds nothing. -/
theorem claim_C6_counterexample :
    searchContacts [cTech] (" tech ".toList) ≠
      claimSearchC6 [cTech] (" tech ".toList) := by decide

theorem claim_C6_witness :
    searchContacts [cTech, cAda] ("tech".toList) = [cTech] ∧
    searchContacts [cTech, cAda] [] = [cTech, cAda] := by
  have h := claim_C6 [cTech, cAda] ("tech".toList)
  exact ⟨by rw [h.1]; decide, (claim_C6 [cTech, cAda] []).2.2⟩

/-- C7: `get_all_contacts` returns a rearrangement (`Perm`) of the
collection sorted ascending by the pair (last_name, first_name),
lexicographically and case-sensitively on the stored values.  The
embedded operation is pure: `self.contacts` is not reassigned, so the
underlying collection is unchanged. -/
theorem claim_C7 (contacts : List Contact) :
    (getAllContacts contacts).Perm contacts ∧
    List.Pairwise SpecKeyLe (getAllContacts contacts) := by
  unfold getAllContacts
  constructor
  · exact List.mergeSort_perm contacts keyLe
  · have h := List.sorted_mergeSort keyLe_trans keyLe_total contacts
    exact h.imp fun hab => (keyLe_iff _ _).1 hab

/-- C8: when no stored record's email equals the normalized lookup email,
`update_contact` and `delete_contact` return `false` (not an exception)
with the collection unchanged and no save, and `find_by_email` returns
`None`. -/
theorem claim_C8 (contacts : List Contact) (email : Str)
    (fields : List (String × Str)) (now : Str)
    (h : ∀ x ∈ contacts, x.email ≠ normalizeEmail email) :
    updateContact contacts email fields now = (Except.ok false, contacts, false) ∧
    deleteContact contacts email = (false, contacts, false) ∧
    findByEmail contacts email = none := by
  have hf : contacts.find? (fun c => c.email == normalizeEmail email) = none := by
    rw [List.find?_eq_none]
    intro x hx
    simp [h x hx]
  refine ⟨?_, ?_, hf⟩
  · simp [updateContact, hf]
  · simp [deleteContact, hf]

theorem claim_C8_witness :
    updateContact [cAlan] ("nope@x.com".toList) [("phone", "5".toList)]
        ("t1".toList) = (Except.ok false, [cAlan], false) ∧
    deleteContact [cAlan] ("nope@x.com".toList) = (false, [cAlan], false) ∧
    findByEmail [cAlan] ("nope@x.com".toList) = none :=
  claim_C8 [cAlan] ("nope@x.com".toList) [("phone", "5".toList)]
    ("t1".toList) (by decide)

/-- C9: `get_stats` reports the collection size, and its `companies` list
is the duplicate-free, ascending-sorted list of exactly the non-empty
company values, with `unique_companies` its length. -/
theorem claim_C9 (contacts : List Contact) :
    (getStats contacts).total_contacts = contacts.length ∧
    (getStats contacts).unique_companies = (getStats contacts).companies.length ∧
    (getStats contacts).companies.Nodup ∧
    List.Pairwise (fun s t : Str => s ≤ t) (getStats contacts).companies ∧
    (∀ s : Str, s ∈ (getStats contacts).companies ↔
      (s ≠ [] ∧ ∃ c ∈ contacts, c.company = s)) := by
  have hperm : (getStats contacts).companies.Perm
      (((contacts.map Contact.company).filter (fun s => !s.isEmpty)).dedup) :=
    List.mergeSort_perm _ _
  refine ⟨rfl, rfl, ?_, ?_, ?_⟩
  · exact hperm.nodup_iff.2 (List.nodup_dedup _)
  · have h := List.sorted_mergeSort strLe_trans strLe_total
      (((contacts.map Contact.company).filter (fun s => !s.isEmpty)).dedup)
    exact h.imp fun hab => of_decide_eq_true hab
  · intro s
    rw [hperm.mem_iff, List.mem_dedup, List.mem_filter]
    simp only [List.mem_map, Bool.not_eq_true', List.isEmpty_eq_false_iff_exists_mem]
    constructor
    · rintro ⟨⟨c, hc, rfl⟩, ⟨x, hx⟩⟩
      exact ⟨List.ne_nil_of_mem hx, c, hc, rfl⟩
    · rintro ⟨hne, c, hc, rfl⟩
      refine ⟨⟨c, hc, rfl⟩, ?_⟩
      rcases he : c.company with _ | ⟨x, t⟩
      · exact absurd he hne
      · exact ⟨x, List.mem_cons_self x t⟩

theorem claim_C9_witness :
    (getStats [cTech, cAda, cAlan]).total_contacts = 3 ∧
    ("TechCorp".toList ∈ (getStats [cTech, cAda, cAlan]).companies ↔ True) := by
  refine ⟨(claim_C9 [cTech, cAda, cAlan]).1, ?_⟩
  rw [(claim_C9 [cTech, cAda, cAlan]).2.2.2.2 ("TechCorp".toList)]
  simp only [iff_true]
  exact ⟨by decide, cTech, by decide⟩

instance : DecidableEq (Except Unit Bool) := fun a b =>
  match a, b with
  | Except.ok x, Except.ok y =>
    if h : x = y then isTrue (congrArg Except.ok h)
    else isFalse fun he => h (Except.ok.inj he)
  | Except.error x, Except.error y => isTrue (by cases x; cases y; rfl)
  | Except.ok _, Except.error _ => isFalse fun he => Except.noConfusion he
  | Except.error _, Except.ok _ => isFalse fun he => Except.noConfusion he

instance (contacts : List Contact) : Decidable (UniqueEmails contacts) := by
  unfold UniqueEmails
  infer_instance

instance (n : Str) : Decidable (SpecNameClaim n) := by
  unfold SpecNameClaim
  infer_instance

instance (n : Str) : Decidable (SpecNameAmended n) := by
  unfold SpecNameAmended
  infer_instance

/-- C1 (code bug): on a two-record collection satisfying the unique-email
invariant, `update_contact` changing the first record's email to the
second record's (valid) email succeeds — returning `True` and saving —
and leaves two records with the same normalized email: `update_contact`
performs no uniqueness check, so the invariant is violated. -/
theorem claim_C1 :
    UniqueEmails [cAlan, cBeth] ∧
    (updateContact [cAlan, cBeth] ("alan@x.com".toList)
        [("email", "beth@x.com".toList)] ("t1".toList)).1 = Except.ok true ∧
    ¬ UniqueEmails (updateContact [cAlan, cBeth] ("alan@x.com".toList)
        [("email", "beth@x.com".toList)] ("t1".toList)).2.1 := by decide

/-- C2 as stated is false: `Contact.update` applies the keyword arguments
in order and validates each name/email as it reaches it, so an update
listing a valid `first_name` before an invalid `email` raises (flag
`false`) with `first_name` already changed. -/
theorem claim_C2_counterexample :
    (Contact.update cAda [("first_name", "Grace".toList),
        ("email", "bad".toList)] ("t1".toList)).2 = false ∧
    (Contact.update cAda [("first_name", "Grace".toList),
        ("email", "bad".toList)] ("t1".toList)).1.first_name ≠
      cAda.first_name := by decide

/-- C2 (amended): when a partial update contains an invalid touched
name/email entry, `Contact.update` raises `ValidationError` (flag
`false`); the entries before the first invalid one remain applied (fields
may be left partially updated), while the invalid entry, every later
entry, and `updated_at` are untouched. -/
theorem claim_C2 {c c1 : Contact} {pre post : List (String × Str)}
    {k : String} {v now : Str} (hpre : updateLoop c pre = (c1, true))
    (hbad : ((k = "first_name" ∨ k = "last_name") ∧ validateName v = none) ∨
      (k = "email" ∧ validateEmail v = none)) :
    Contact.update c (pre ++ (k, v) :: post) now = (c1, false) := by
  have hstep : updateLoop c1 ((k, v) :: post) = (c1, false) := by
    rcases hbad with ⟨hk, hv⟩ | ⟨hk, hv⟩
    · rcases hk with rfl | rfl
      · simp [updateLoop, hv]
      · simp [updateLoop, hv]
    · subst hk
      simp [updateLoop, hv]
  rw [Contact.update, updateLoop_append, hpre]
  simp [hstep]

theorem claim_C2_witness :
    Contact.update cAda [("phone", "5".toList), ("email", "bad".toList)]
        ("t1".toList) = ({ cAda with phone := "5".toList }, false) :=
  @claim_C2 cAda { cAda with phone := "5".toList } [("phone", "5".toList)]
    [] "email" ("bad".toList) ("t1".toList) (by decide)
    (Or.inr ⟨rfl, by decide⟩)

/-- C3 as stated is false: the code's name regex uses `\s`, which accepts
a TAB inside a name, while the claim's character set `[A-Za-z \x27-]`
only accepts the literal space; construction with first name `"A\tB"`
succeeds although the claim says it must fail.  (The claim's email
pattern `[\w.-]` for the domain is likewise wider — `_` — than the
code's `[a-zA-Z0-9.-]`.) -/
theorem claim_C3_counterexample :
    (mkContact ("A\tB".toList) ("Doe".toList) ("a@b.co".toList) [] [] []
      ("t0".toList)).isSome = true ∧
    ¬ SpecNameClaim ("A\tB".toList) := by decide

/-- C3 (amended): construction succeeds exactly when both trimmed names
are non-empty and consist of letters, WHITESPACE, hyphens and
apostrophes, and the trimmed email matches
`^[\w.%+-]+@[A-Za-z0-9.-]+\.[A-Za-z]{2,}$` (no `_` in the domain); on
success the stored names are the trimmed inputs and the stored email the
trimmed, lowercased input, and otherwise construction raises
`ValidationError` (the embedded constructor is pure, so no existing state
is mutated). -/
theorem claim_C3 (fn ln em ph co no now : Str) (r : Contact) :
    mkContact fn ln em ph co no now = some r ↔
      (SpecNameAmended fn ∧ SpecNameAmended ln ∧ SpecEmailAmended em ∧
        r = ⟨pyStrip fn, pyStrip ln, pyLower (pyStrip em), ph, co, no,
          now, now⟩) := by
  rw [mkContact_eq_some]
  constructor
  · rintro ⟨f, l, e, hf, hl, he, rfl⟩
    obtain ⟨rfl, hfne, hfm⟩ := validateName_eq_some hf
    obtain ⟨rfl, hlne, hlm⟩ := validateName_eq_some hl
    obtain ⟨rfl, hene, hem⟩ := validateEmail_eq_some he
    exact ⟨(specNameAmended_iff fn).2 ⟨hfne, hfm⟩,
      (specNameAmended_iff ln).2 ⟨hlne, hlm⟩,
      (specEmailAmended_iff em).2 hem, rfl⟩
  · rintro ⟨hfn, hln, hem, rfl⟩
    obtain ⟨hfne, hfm⟩ := (specNameAmended_iff fn).1 hfn
    obtain ⟨hlne, hlm⟩ := (specNameAmended_iff ln).1 hln
    have hene : pyStrip em ≠ [] := by
      obtain ⟨l, d, t, hs, -⟩ := hem
      rw [hs]
      simp
    exact ⟨_, _, _, validateName_of hfne hfm, validateName_of hlne hlm,
      validateEmail_of hene ((specEmailAmended_iff em).1 hem), rfl⟩

theorem claim_C3_witness :
    mkContact ("Ada".toList) ("Lovelace".toList) (" ADA@Calc.org ".toList)
        [] ("Analytical".toList) [] ("t0".toList) = some cAda ∧
    SpecNameAmended ("Ada".toList) ∧ SpecEmailAmended (" ADA@Calc.org ".toList) := by
  have h := (claim_C3 ("Ada".toList) ("Lovelace".toList)
    (" ADA@Calc.org ".toList) [] ("Analytical".toList) [] ("t0".toList) cAda).1
    (by decide)
  exact ⟨by decide, h.1, h.2.2.1⟩

/-- C4: every record the constructor yields satisfies the stored-field
invariant; serializing such a record and deserializing it reproduces it
field for field, timestamps included; deserialization substitutes the
empty string for a missing `phone`/`company`/`notes` and ignores unknown
keys. -/
theorem claim_C4 :
    (∀ (fn ln em ph co no now : Str) (r : Contact),
      mkContact fn ln em ph co no now = some r → ValidContact r) ∧
    (∀ (r : Contact) (now : Str), ValidContact r →
      fromDict (toDict r) now = some r) ∧
    (∀ (d : List (String × Str)) (now : Str) (r : Contact),
      fromDict d now = some r →
        (d.lookup "phone" = none → r.phone = []) ∧
        (d.lookup "company" = none → r.company = []) ∧
        (d.lookup "notes" = none → r.notes = [])) ∧
    (∀ (k : String) (v : Str) (d : List (String × Str)) (now : Str),
      k ∉ attrKeys → fromDict ((k, v) :: d) now = fromDict d now) :=
  ⟨fun _ _ _ _ _ _ _ _ h => mkContact_valid h,
   fun _ now h => fromDict_toDict h now,
   fun _ _ _ h => fromDict_defaults h,
   fun _ _ _ _ h => fromDict_ignores_unknown h⟩

theorem claim_C4_witness :
    ValidContact cAda ∧
    fromDict (toDict cAda) ("t9".toList) = some cAda ∧
    (∀ r : Contact,
      fromDict [("first_name", "Ada".toList), ("last_name", "Lovelace".toList),
        ("email", "ada@calc.org".toList)] ("t9".toList) = some r →
      r.phone = []) ∧
    fromDict (("nickname", "A".toList) :: toDict cAda) ("t9".toList) =
      fromDict (toDict cAda) ("t9".toList) := by
  refine ⟨?_, ?_, ?_, ?_⟩
  · exact claim_C4.1 ("Ada".toList) ("Lovelace".toList)
      (" ADA@Calc.org ".toList) [] ("Analytical".toList) [] ("t0".toList)
      cAda (by decide)
  · exact claim_C4.2.1 cAda ("t9".toList) (by decide)
  · intro r hr
    exact (claim_C4.2.2.1 _ _ _ hr).1 (by decide)
  · exact claim_C4.2.2.2 "nickname" ("A".toList) (toDict cAda)
      ("t9".toList) (by decide)

/-- C10: `Contact.update` silently skips entries whose key is not an
attribute of the record (removing such an entry does not change the
result at all), and a successful call — including one whose entries are
all unrecognized, or an empty call — refreshes `updated_at` to the
current time. -/
theorem claim_C10 (c : Contact) (now : Str) :
    (∀ fields : List (String × Str), (∀ kv ∈ fields, kv.1 ∉ attrKeys) →
      Contact.update c fields now = ({ c with updated_at := now }, true)) ∧
    (∀ (pre post : List (String × Str)) (k : String) (v : Str),
      k ∉ attrKeys →
      Contact.update c (pre ++ (k, v) :: post) now =
        Contact.update c (pre ++ post) now) := by
  constructor
  · intro fields h
    rw [Contact.update, updateLoop_all_unknown h]
  · intro pre post k v hk
    rw [Contact.update, Contact.update, updateLoop_remove_unknown v hk]

theorem claim_C10_witness :
    Contact.update cAda [("nickname", "A".toList)] ("t1".toList) =
      ({ cAda with updated_at := "t1".toList }, true) ∧
    Contact.update cAda [] ("t1".toList) =
      ({ cAda with updated_at := "t1".toList }, true) ∧
    Contact.update cAda [("phone", "5".toList), ("nickname", "A".toList)]
        ("t1".toList) =
      Contact.update cAda [("phone", "5".toList)] ("t1".toList) :=
  ⟨(claim_C10 cAda ("t1".toList)).1 [("nickname", "A".toList)] (by decide),
   (claim_C10 cAda ("t1".toList)).1 [] (by decide),
   (claim_C10 cAda ("t1".toList)).2 [("phone", "5".toList)] [] "nickname"
     ("A".toList) (by decide)⟩
